import Mathlib

/-!
Verification development for the ASDForecast engine (src/server.js).

The repository concatenates successive iterations of the same engine.  We
shallowly embed the two iterations the properties refer to:

* the "v54" engine (server.js lines 1-671): game state, the bet
  verification handler `app.post(/api/verify-bet)`, the frame closer
  `closeFrame`, the settlement routine `processPayouts`, and the
  cancellation refund routine `processRefunds`;
* the "v131" engine (server.js lines 672-1224): the durable payout/refund
  queue drain `processPayoutQueue` and the paused branch of the oracle
  tick `updatePrice`.

JavaScript numbers are embedded as exact rationals (`ℚ`); `Math.floor`
becomes `Int.floor` (`⌊·⌋`).  Network results (parsed funding transaction,
submission success/failure, wallet balances) are oracle inputs.  Effectful
code is embedded as explicit state passing plus an effect/event trace.
-/

namespace ASDForecast

/-! ## Constants (server.js lines 33-38) -/

def PRICE_SCALE : ℚ := 1/10

def FEE_PERCENT : ℚ := 552/10000

def FRAME_DURATION : Int := 15 * 60 * 1000

def FEE_WALLET : String := "5xfyqaDzaj1XNvyz3gnuRJMSNUzGkkMbYbh2bKzWxuan"

def UPKEEP_WALLET : String := "BH8aAiEDgZGJo6pjh32d5b6KyrNt6zA9U8WTLZShmVXq"

/-! ## v54 data model (server.js lines 72-84, 612) -/

/-- A bet as pushed by the verify-bet handler (server.js line 612). -/
structure Bet where
  signature : String
  user : String
  direction : String
  costSol : ℚ
  entryPrice : ℚ
  shares : ℚ
  timestamp : Int
  deriving DecidableEq, Repr

/-- Pool share counters, seeded at 50/50 (server.js line 76). -/
structure PoolShares where
  up : ℚ
  down : ℚ
  deriving DecidableEq, Repr

/-- A recent-trades feed entry (server.js line 613). -/
structure RecentTrade where
  user : String
  direction : String
  shares : ℚ
  time : Int
  deriving DecidableEq, Repr

/-- The mutable game state of the v54 engine, restricted to the fields the
verify-bet handler and closeFrame read or write (server.js lines 72-84;
`price` and `sharePriceHistory` are omitted: neither handler modelled here
consults them).  `totalVolumeStat` is `globalStats.totalVolume`. -/
structure GameState where
  candleOpen : ℚ
  candleStartTime : Int
  poolShares : PoolShares
  bets : List Bet
  recentTrades : List RecentTrade
  isPaused : Bool
  processedSignatures : List String
  totalVolumeStat : ℚ
  deriving DecidableEq, Repr

/-- A verify-bet request together with the chain-oracle facts the handler
obtains from `getParsedTransaction` (server.js lines 567-588): `txValid`
is "the transaction exists and has no `meta.err`", `solAmount` is the
lamports of the system transfer to the house divided by 1e9 (0 when no
such transfer is found), `txBlockTime` is `tx.blockTime * 1000`, and
`now` is `Date.now()` at processing time. -/
structure BetReq where
  signature : String
  userPubKey : String
  direction : String
  txValid : Bool
  solAmount : ℚ
  txBlockTime : Int
  now : Int
  deriving DecidableEq, Repr

/-- The handler's response: the success JSON or an error code string. -/
inductive BetResp where
  | success (shares price : ℚ)
  | error (code : String)
  deriving DecidableEq, Repr

/-- Quoted share price for the UP side (server.js lines 597-599),
before the minimum-tick floor. -/
def quoteUp (p : PoolShares) : ℚ := p.up / (p.up + p.down) * PRICE_SCALE

/-- Quoted share price for the DOWN side (server.js lines 597-600),
before the minimum-tick floor. -/
def quoteDown (p : PoolShares) : ℚ := p.down / (p.up + p.down) * PRICE_SCALE

/-- Minimum-tick floor on a quoted price (server.js line 601). -/
def clampPrice (q : ℚ) : ℚ := if q < 1/1000 then 1/1000 else q

/-- The quote pair a bet observes before trading, after clamping. -/
def quotePair (p : PoolShares) : ℚ × ℚ :=
  (clampPrice (quoteUp p), clampPrice (quoteDown p))

/-- The `/api/verify-bet` handler of the v54 engine (server.js lines
565-627).  Checks run in source order: the pre-mutex pause, missing-data
and duplicate checks (lines 566-569), the chain validation (lines
571-589), then the in-mutex duplicate, block-time and pause re-checks
(lines 593-595), then pricing and the ledger mutation (lines 597-621).
Under the sequential (single-writer) model both rounds of checks see the
same state. -/
def verifyBet (gs : GameState) (r : BetReq) : GameState × BetResp :=
  if gs.isPaused then (gs, .error "MARKET_PAUSED")
  else if r.signature = "" ∨ r.userPubKey = "" then (gs, .error "MISSING_DATA")
  else if r.signature ∈ gs.processedSignatures then (gs, .error "DUPLICATE_TX_DETECTED")
  else if ¬ r.txValid then (gs, .error "TX_INVALID")
  else if r.solAmount = 0 then (gs, .error "NO_FUNDS")
  else if r.signature ∈ gs.processedSignatures then (gs, .error "DUPLICATE_TX_DETECTED")
  else if r.txBlockTime < gs.candleStartTime then (gs, .error "TX_TIMESTAMP_EXPIRED")
  else if gs.isPaused then (gs, .error "MARKET_PAUSED")
  else
    let rawPrice := if r.direction = "UP" then quoteUp gs.poolShares else quoteDown gs.poolShares
    let price := clampPrice rawPrice
    let sharesReceived := r.solAmount / price
    let pool' := if r.direction = "UP"
      then { gs.poolShares with up := gs.poolShares.up + sharesReceived }
      else { gs.poolShares with down := gs.poolShares.down + sharesReceived }
    let bet : Bet :=
      ⟨r.signature, r.userPubKey, r.direction, r.solAmount, price, sharesReceived, r.now⟩
    let rt := (⟨r.userPubKey, r.direction, sharesReceived, r.now⟩ : RecentTrade) :: gs.recentTrades
    let rt' := if rt.length > 20 then rt.dropLast else rt
    ({ gs with
        poolShares := pool'
        bets := gs.bets ++ [bet]
        recentTrades := rt'
        totalVolumeStat := gs.totalVolumeStat + r.solAmount
        processedSignatures := r.signature :: gs.processedSignatures },
     .success sharesReceived price)

/-! ## v54 settlement engine (server.js lines 196-438)

Settlement and refund code is embedded as a trace of externally visible
effects.  The alphabet records the archival history write, every transfer
submission attempt (batching into transactions of 15 recipients is
flattened: it does not change which (recipient, lamports) pairs are
submitted), and — so that its absence is expressible — a queue enqueue,
which this engine version never performs.  Per-user statistics writes and
log appends are outside the alphabet. -/

/-- Archival frame history record (server.js lines 382-393; the derived
`startTime`, `endTime` and ISO `time` fields are functions of `id`). -/
structure FrameRecord where
  id : Int
  openPrice : ℚ
  closePrice : ℚ
  result : String
  sharesUp : ℚ
  sharesDown : ℚ
  totalSol : ℚ
  deriving DecidableEq, Repr

/-- Externally visible effects of settlement. -/
inductive Effect where
  | writeHistory (record : FrameRecord)
  | transfer (recipient : String) (lamports : Int)
  | enqueue (queueType : String) (frameId : Int)
  deriving DecidableEq, Repr

/-- Per-user aggregated share position (server.js lines 283-288). -/
structure Position where
  up : ℚ
  down : ℚ
  deriving DecidableEq, Repr

/-- One step of the `userPositions` aggregation (server.js lines 284-288):
a JS object keyed by user, accumulating UP and DOWN shares per bet,
keys in first-occurrence order. -/
def addPosition (acc : List (String × Position)) (b : Bet) : List (String × Position) :=
  if acc.any (fun e => e.1 = b.user) then
    acc.map fun e =>
      if e.1 = b.user then
        (e.1, if b.direction = "UP" then ⟨e.2.up + b.shares, e.2.down⟩
              else ⟨e.2.up, e.2.down + b.shares⟩)
      else e
  else
    acc ++ [(b.user, if b.direction = "UP" then (⟨b.shares, 0⟩ : Position) else ⟨0, b.shares⟩)]

/-- Aggregate a bet list into per-user positions (server.js lines 283-288). -/
def userPositions (bets : List Bet) : List (String × Position) :=
  bets.foldl addPosition []

/-- A user's stance: the side holding more shares, FLAT on a tie
(server.js lines 294-296). -/
def stance (pos : Position) : String :=
  if pos.up > pos.down then "UP" else if pos.down > pos.up then "DOWN" else "FLAT"

/-- Winning-side shares held by an eligible user (server.js line 299). -/
def sharesHeld (result : String) (pos : Position) : ℚ :=
  if result = "UP" then pos.up else pos.down

/-- The eligible winners with their winning-side share counts
(server.js lines 290-303). -/
def eligibleWinners (result : String) (bets : List Bet) : List (String × ℚ) :=
  (userPositions bets).filterMap fun e =>
    if stance e.2 = result then some (e.1, sharesHeld result e.2) else none

/-- Total winning shares over eligible users (server.js line 300). -/
def totalWinningShares (result : String) (bets : List Bet) : ℚ :=
  ((eligibleWinners result bets).map fun w => w.2).sum

/-- The pot in lamports (server.js line 282). -/
def potLamports (totalVolume : ℚ) : Int :=
  ⌊totalVolume * (94/100) * 1000000000⌋

/-- One winner's payout in lamports (server.js lines 313-314). -/
def payoutLamports (pot : Int) (held totalW : ℚ) : Int :=
  ⌊(pot : ℚ) * (held / totalW)⌋

/-- The payout transfers actually submitted (server.js lines 305-325):
guarded by positive total winning shares, one transfer per eligible winner
whose payout strictly exceeds the 5000-lamport dust threshold. -/
def payoutTransfers (result : String) (bets : List Bet) (totalVolume : ℚ) : List Effect :=
  let pot := potLamports totalVolume
  let totalW := totalWinningShares result bets
  if totalW > 0 then
    (eligibleWinners result bets).filterMap fun w =>
      let p := payoutLamports pot w.2 totalW
      if p > 5000 then some (.transfer w.1 p) else none
  else []

/-- The payout engine `processPayouts` (server.js lines 247-362) as its
trace of transfer submissions.  `balance` and `postPayoutBalance` are the
two wallet-balance oracle reads; the house keypair is assumed loaded.
The FLAT branch burns 99% of volume to the fee wallet; otherwise the fee,
the per-winner payouts, and the sweep to the upkeep wallet are submitted
in that order. -/
def processPayouts (balance postPayoutBalance : Int) (result : String)
    (bets : List Bet) (totalVolume : ℚ) : List Effect :=
  if totalVolume = 0 then []
  else if (balance : ℚ) / 1000000000 < 2/100 then []
  else if result = "FLAT" then
    let burn := ⌊totalVolume * (99/100) * 1000000000⌋
    if burn > 0 then [Effect.transfer FEE_WALLET burn] else []
  else
    let fee := ⌊totalVolume * FEE_PERCENT * 1000000000⌋
    let feeEffects := if fee > 0 then [Effect.transfer FEE_WALLET fee] else []
    let sweep := postPayoutBalance - 50000000 - 5000
    let sweepEffects := if sweep > 0 then [Effect.transfer UPKEEP_WALLET sweep] else []
    feeEffects ++ payoutTransfers result bets totalVolume ++ sweepEffects

/-- Frame result from open and close prices (server.js lines 374-376). -/
def frameResult (openPrice closePrice : ℚ) : String :=
  if closePrice > openPrice then "UP" else if closePrice < openPrice then "DOWN" else "FLAT"

/-- `closeFrame` (server.js lines 365-438): computes the result, writes
the archival history record, snapshots the bets, clears the processed
signatures, resets the pool and bet list and rolls the candle forward,
then fires `processPayouts` on the snapshot without awaiting it.  The
effect trace lists the history write first, then the payout engine's
submissions. -/
def closeFrame (gs : GameState) (closePrice : ℚ) (closeTime : Int)
    (balance postPayoutBalance : Int) : GameState × List Effect :=
  let frameId := gs.candleStartTime
  let result := frameResult gs.candleOpen closePrice
  let realSharesUp := max 0 (gs.poolShares.up - 50)
  let realSharesDown := max 0 (gs.poolShares.down - 50)
  let frameSol := (gs.bets.map Bet.costSol).sum
  let record : FrameRecord :=
    ⟨frameId, gs.candleOpen, closePrice, result, realSharesUp, realSharesDown, frameSol⟩
  let betsSnapshot := gs.bets
  let gs' := { gs with
    processedSignatures := []
    candleStartTime := closeTime
    candleOpen := closePrice
    poolShares := ⟨50, 50⟩
    bets := [] }
  (gs', Effect.writeHistory record ::
        processPayouts balance postPayoutBalance result betsSnapshot frameSol)

/-! ## v54 refund engine (server.js lines 196-244) -/

/-- Lamports refunded for one bet (server.js line 206). -/
def refundLamports (costSol : ℚ) : Int :=
  ⌊costSol * (99/100) * 1000000000⌋

/-- One step of the per-user refund accumulation (server.js lines 204-209). -/
def addRefund (acc : List (String × Int)) (b : Bet) : List (String × Int) :=
  if acc.any (fun e => e.1 = b.user) then
    acc.map fun e => if e.1 = b.user then (e.1, e.2 + refundLamports b.costSol) else e
  else acc ++ [(b.user, refundLamports b.costSol)]

/-- Per-user refund totals in lamports, keys in first-occurrence order
(server.js lines 201-209). -/
def refundTotals (bets : List Bet) : List (String × Int) :=
  bets.foldl addRefund []

/-- `processRefunds` (server.js lines 196-244) as its trace of transfer
submissions: the 1% cancellation fee to the fee wallet, then one refund
transfer per user whose total strictly exceeds the 5000-lamport dust
check. -/
def processRefunds (bets : List Bet) : List Effect :=
  if bets = [] then []
  else
    let totalFee := (bets.map fun b => b.costSol * (1/100) * 1000000000).sum
    let feeEffects := if totalFee > 0 then [Effect.transfer FEE_WALLET ⌊totalFee⌋] else []
    feeEffects ++
      ((refundTotals bets).filterMap fun e =>
        if e.2 > 5000 then some (Effect.transfer e.1 e.2) else none)

/-! ## v131 payout/refund queue (server.js lines 913-996)

The drain cycle `processPayoutQueue` is embedded as a fuel-indexed loop
over an explicit state: the persisted queue, the per-user frame logs, the
audit history, the permanent-failure log, and an oracle list of
submission outcomes (`some sig` = `sendAndConfirmTransaction` confirmed
with transaction id `sig`, `none` = it threw).  One `drainStep` is one
iteration of the `while` loop; the returned flag is false exactly when
the iteration ended in the below-ceiling retry `break`. -/

/-- A queue batch recipient (one (pubKey, amount) pair). -/
structure QRecipient where
  pubKey : String
  amount : Int
  deriving DecidableEq, Repr

/-- A durable queue batch (server.js lines 929-931, 979). -/
structure QBatch where
  btype : String
  frameId : Int
  recipients : List QRecipient
  retries : Nat
  deriving DecidableEq, Repr

/-- A user's per-frame log entry, restricted to the transfer markers the
drain cycle reads and writes (server.js lines 942, 959, 964-965). -/
structure FrameLogEntry where
  payoutTx : Option String
  refundTx : Option String
  deriving DecidableEq, Repr

/-- The user records as read by `getUser`: per pubKey and frameId, the
frame-log entry if the user's file has one. -/
def UserLogs : Type := String → Int → Option FrameLogEntry

/-- An audit history record (server.js line 951; `totalAmount` kept in
lamports rather than the formatted SOL string). -/
structure PayoutHistoryRecord where
  frameId : Int
  qtype : String
  signature : String
  recipientCount : Nat
  totalAmount : Int
  deriving DecidableEq, Repr

/-- State touched by one run of the drain cycle. -/
structure QueueState where
  queue : List QBatch
  userLogs : UserLogs
  payoutHistory : List PayoutHistoryRecord
  failedLog : List QBatch
  outcomes : List (Option String)

/-- Whether a recorded payout transaction id exists for this user and
frame (server.js line 942: `uData.frameLog && uData.frameLog[frameId] &&
uData.frameLog[frameId].payoutTx`). -/
def hasPayoutTx (logs : UserLogs) (u : String) (f : Int) : Bool :=
  match logs u f with
  | some entry => entry.payoutTx.isSome
  | none => false

/-- The idempotency filter (server.js lines 939-945): for USER_PAYOUT and
USER_REFUND batches, a recipient is skipped exactly when the batch is a
USER_PAYOUT and a payout transaction id is already recorded for this
frame; any other batch type keeps all recipients. -/
def validRecipients (logs : UserLogs) (b : QBatch) : List QRecipient :=
  if b.btype = "USER_PAYOUT" ∨ b.btype = "USER_REFUND" then
    b.recipients.filter fun item =>
      !(b.btype == "USER_PAYOUT" && hasPayoutTx logs item.pubKey b.frameId)
  else b.recipients

/-- User-log writes after a confirmed submission (server.js lines
956-968): payout batches stamp `payoutTx` on existing entries of the
surviving recipients; refund batches stamp `refundTx`, creating the entry
when missing. -/
def applySuccessLogs (logs : UserLogs) (b : QBatch) (valid : List QRecipient)
    (sig : String) : UserLogs :=
  if b.btype = "USER_PAYOUT" then
    fun u f =>
      if (valid.any fun item => item.pubKey == u) ∧ f = b.frameId then
        match logs u f with
        | some entry => some { entry with payoutTx := some sig }
        | none => none
      else logs u f
  else if b.btype = "USER_REFUND" then
    fun u f =>
      if (valid.any fun item => item.pubKey == u) ∧ f = b.frameId then
        match logs u f with
        | some entry => some { entry with refundTx := some sig }
        | none => some ⟨none, some sig⟩
      else logs u f
  else logs

/-- The single-recipient batches a failed multi-recipient batch is
decomposed into (server.js line 979): one per original recipient, type
USER_REFUND, retry count 0. -/
def singleRecipientBatches (b : QBatch) : List QBatch :=
  b.recipients.map fun item => ⟨"USER_REFUND", b.frameId, [item], 0⟩

/-- Unshift onto the audit history, capped at 100 (server.js lines 952-953). -/
def pushHistory (h : List PayoutHistoryRecord) (r : PayoutHistoryRecord) :
    List PayoutHistoryRecord :=
  let h' := r :: h
  if h'.length > 100 then h'.dropLast else h'

/-- Total lamports over the surviving recipients (server.js line 943). -/
def batchTotalAmount (valid : List QRecipient) : Int :=
  (valid.map QRecipient.amount).sum

/-- How one loop iteration disposed of the head batch. -/
inductive DrainEvent where
  | delivered (b : QBatch) (valid : List QRecipient) (sig : String)
  | droppedNoSurvivors (b : QBatch)
  | decomposed (b : QBatch)
  | permLogged (b : QBatch)
  | heldForRetry (b : QBatch)
  deriving DecidableEq, Repr

/-- One iteration of the drain loop (server.js lines 928-991).  `none`
when the queue is empty (loop condition fails) or the outcome oracle is
exhausted; otherwise the event, the successor state, and whether the loop
continues (false only for the below-ceiling retry `break`, line 987). -/
def drainStep (s : QueueState) : Option (DrainEvent × QueueState × Bool) :=
  match s.queue with
  | [] => none
  | b :: rest =>
    let valid := validRecipients s.userLogs b
    if valid.isEmpty then
      some (.droppedNoSurvivors b, { s with queue := rest }, true)
    else
      match s.outcomes with
      | [] => none
      | outcome :: os =>
        match outcome with
        | some sig =>
          some (.delivered b valid sig,
            { s with
              queue := rest
              outcomes := os
              userLogs := applySuccessLogs s.userLogs b valid sig
              payoutHistory := pushHistory s.payoutHistory
                ⟨b.frameId, b.btype, sig, valid.length, batchTotalAmount valid⟩ },
            true)
        | none =>
          let b' := { b with retries := b.retries + 1 }
          if b'.retries ≥ 5 then
            if b.recipients.length > 1 then
              some (.decomposed b',
                { s with queue := rest ++ singleRecipientBatches b, outcomes := os }, true)
            else
              some (.permLogged b',
                { s with
                  queue := rest
                  outcomes := os
                  failedLog := s.failedLog ++ [b'] }, true)
          else
            some (.heldForRetry b', { s with queue := b' :: rest, outcomes := os }, false)

/-- Iterate `drainStep` on at most `fuel` loop iterations, collecting the
events in order; stops at the `break`, at an empty queue, or when the
outcome oracle runs dry. -/
def drain : Nat → QueueState → QueueState × List DrainEvent
  | 0, s => (s, [])
  | fuel + 1, s =>
    match drainStep s with
    | none => (s, [])
    | some (e, s', cont) =>
      if cont then
        let r := drain fuel s'
        (r.1, e :: r.2)
      else (s', [e])

/-- Loop-iteration bound for one drain invocation: decomposition replaces
a weight `n+1` multi-recipient batch by `n` weight-1 singles, so every
continuing iteration strictly decreases the total weight. -/
def batchWeight (b : QBatch) : Nat :=
  if b.recipients.length ≥ 2 then b.recipients.length + 1 else 1

/-- Total iteration bound over a queue. -/
def queueMeasure (q : List QBatch) : Nat :=
  (q.map batchWeight).sum

/-- One full invocation of `processPayoutQueue` (server.js lines
913-994): run the loop to completion (the measure bounds its length). -/
def processPayoutQueue (s : QueueState) : QueueState × List DrainEvent :=
  drain (queueMeasure s.queue) s

/-! ## v131 oracle tick, paused branch (server.js lines 1055-1087)

The fields of the v131 game state the paused branch reads or writes. -/

structure GameState131 where
  candleOpen : ℚ
  candleStartTime : Int
  bets : List Bet
  isPaused : Bool
  isResetting : Bool
  isCancelled : Bool
  deriving DecidableEq, Repr

/-- A v131 history record (server.js lines 1065-1074; derived
`startTime`, `endTime`, ISO `time` omitted as functions of `id`). -/
structure HistRecord131 where
  id : Int
  openPrice : ℚ
  closePrice : ℚ
  result : String
  sharesUp : ℚ
  sharesDown : ℚ
  totalSol : ℚ
  winners : Nat
  payout : ℚ
  deriving DecidableEq, Repr

/-- Observable actions of the paused branch:
`cancelAndRefund` marks the call to `cancelCurrentFrameAndRefund`, whose
definition is not part of the shipped source; `histAppend` marks the
skipped-frame history write. -/
inductive PauseEvent where
  | cancelAndRefund
  | histAppend (record : HistRecord131)
  deriving DecidableEq, Repr

/-- The `if (gameState.isPaused)` branch of the v131 `updatePrice` tick
(server.js lines 1055-1087), entered under the state mutex when a price
was fetched: auto-cancel when a non-cancelled pause nears the boundary;
on a crossed boundary, append a PAUSED history record (unless the pause
came from a cancellation) and unpause into the next frame at the fetched
open price. -/
def pausedBranch (gs : GameState131) (hist : List HistRecord131)
    (now : Int) (fetchedPrice : ℚ) (windowStart : Int) :
    GameState131 × List HistRecord131 × List PauseEvent :=
  let timeRemaining := gs.candleStartTime + FRAME_DURATION - now
  if ¬gs.isCancelled ∧ timeRemaining < 300000 ∧ timeRemaining > 0 then
    (gs, hist, [.cancelAndRefund])
  else if windowStart > gs.candleStartTime then
    if ¬gs.isCancelled then
      let record : HistRecord131 :=
        ⟨gs.candleStartTime, gs.candleOpen, fetchedPrice, "PAUSED", 0, 0, 0, 0, 0⟩
      let hist' := record :: hist
      let hist'' := if hist'.length > 100 then hist'.take 100 else hist'
      ({ gs with
          isPaused := false
          candleStartTime := windowStart
          candleOpen := fetchedPrice },
        hist'', [.histAppend record])
    else
      ({ gs with
          isCancelled := false
          isPaused := false
          candleStartTime := windowStart
          candleOpen := fetchedPrice },
        hist, [])
  else (gs, hist, [])

/-! ## Theorems -/

/-- Sum of granted shares over a bet list. -/
def betsShareSum (bets : List Bet) : ℚ :=
  (bets.map Bet.shares).sum

/-- Characterization of the acceptance path of `verifyBet`: a success
response carries the clamped pre-trade quote of the chosen side and
`amount / price` shares, and the new state adds exactly those shares to
the chosen pool side, appends the bet, and records the signature. -/
theorem verifyBet_success_eq (gs : GameState) (r : BetReq) (gs' : GameState) (sh p : ℚ)
    (h : verifyBet gs r = (gs', BetResp.success sh p)) :
    p = clampPrice (if r.direction = "UP" then quoteUp gs.poolShares else quoteDown gs.poolShares) ∧
    sh = r.solAmount / p ∧
    gs'.poolShares = (if r.direction = "UP"
      then (⟨gs.poolShares.up + sh, gs.poolShares.down⟩ : PoolShares)
      else ⟨gs.poolShares.up, gs.poolShares.down + sh⟩) ∧
    gs'.bets = gs.bets ++ [⟨r.signature, r.userPubKey, r.direction, r.solAmount, p, sh, r.now⟩] ∧
    gs'.processedSignatures = r.signature :: gs.processedSignatures ∧
    gs'.candleStartTime = gs.candleStartTime ∧
    gs'.candleOpen = gs.candleOpen := by
  simp only [verifyBet] at h
  split_ifs at h with h1 h2 h3 h4 h5 h6 h7 h8
  all_goals try exact BetResp.noConfusion (congrArg Prod.snd h)
  all_goals
    have hgs := congrArg Prod.fst h
    have hresp := congrArg Prod.snd h
    simp only [] at hgs hresp
    rw [BetResp.success.injEq] at hresp
    obtain ⟨hsh, hp⟩ := hresp
    subst hsh
    subst hp
    subst hgs
    refine ⟨?_, ?_, ?_, ?_, ?_, ?_, ?_⟩ <;> simp [h7]

/-- Rejection paths of `verifyBet` leave the state unchanged. -/
theorem verifyBet_error_state (gs : GameState) (r : BetReq) (c : String)
    (h : (verifyBet gs r).2 = BetResp.error c) : (verifyBet gs r).1 = gs := by
  simp only [verifyBet] at h ⊢
  split_ifs at h ⊢ <;> simp_all

/-- Concrete fixture: a fresh frame opened at price 100 and start 1000. -/
def betGS0 : GameState :=
  ⟨100, 1000, ⟨50, 50⟩, [], [], false, [], 0⟩

/-- Concrete fixture: a bet submission funded at block time 2000. -/
def betReq1 : BetReq :=
  ⟨"s1", "alice", "UP", true, 1, 2000, 1500⟩

/-- C2 counterexample: the signature "s1" is accepted and recorded, but
after `closeFrame` clears the processed-signature set (server.js lines
425-426), resubmitting the very same signature is accepted again — with a
second pool mutation — because its block time (2000) is not strictly
before the new frame start (2000).  This refutes "every later submission
carrying the same signature is rejected as a duplicate ... including
after the frame in which the signature was first applied has closed". -/
theorem c2_counterexample :
    (verifyBet betGS0 betReq1).2 = BetResp.success 20 (1/20) ∧
    "s1" ∈ ((verifyBet betGS0 betReq1).1).processedSignatures ∧
    (verifyBet (closeFrame (verifyBet betGS0 betReq1).1 100 2000 1000000000 0).1 betReq1).2
      = BetResp.success 20 (1/20) ∧
    ((verifyBet (closeFrame (verifyBet betGS0 betReq1).1 100 2000 1000000000 0).1 betReq1).1).poolShares
      ≠ ((closeFrame (verifyBet betGS0 betReq1).1 100 2000 1000000000 0).1).poolShares := by
  refine ⟨?_, ?_, ?_, ?_⟩ <;>
    simp [verifyBet, closeFrame, betGS0, betReq1, quoteUp, quoteDown, clampPrice,
      PRICE_SCALE, frameResult] <;> norm_num

/-- C2 amended: a signature present in the processed set is always
rejected with no mutation (and, absent earlier screening, with the
DUPLICATE_TX_DETECTED error); an accepted submission records its
signature in the set, so within the lifetime of one frame a signature is
applied at most once; `closeFrame` clears the set, after which only the
block-time check stands between a resubmitted signature and a second
application. -/
theorem c2_signature_dedup :
    (∀ gs r, r.signature ∈ gs.processedSignatures →
      (verifyBet gs r).1 = gs ∧ ∀ sh p, (verifyBet gs r).2 ≠ BetResp.success sh p) ∧
    (∀ gs r, gs.isPaused = false → r.signature ≠ "" → r.userPubKey ≠ "" →
      r.signature ∈ gs.processedSignatures →
      verifyBet gs r = (gs, BetResp.error "DUPLICATE_TX_DETECTED")) ∧
    (∀ gs r gs' sh p, verifyBet gs r = (gs', BetResp.success sh p) →
      r.signature ∈ gs'.processedSignatures) ∧
    (∀ gs cp ct bal post, ((closeFrame gs cp ct bal post).1).processedSignatures = []) := by
  refine ⟨?_, ?_, ?_, ?_⟩
  · intro gs r hmem
    constructor
    · simp only [verifyBet]
      split_ifs <;> simp_all
    · intro sh p
      simp only [verifyBet]
      split_ifs <;> simp_all
  · intro gs r hp hs hu hmem
    simp only [verifyBet]
    split_ifs <;> simp_all
  · intro gs r gs' sh p h
    have := verifyBet_success_eq gs r gs' sh p h
    rw [this.2.2.2.2.1]
    exact List.mem_cons_self _ _
  · intro gs cp ct bal post
    simp [closeFrame]

/-- Witness for C2 at concrete inputs: a second same-signature submission
within the same frame is rejected as a duplicate with no mutation. -/
theorem c2_witness :
    verifyBet ((verifyBet betGS0 betReq1).1) betReq1
      = ((verifyBet betGS0 betReq1).1, BetResp.error "DUPLICATE_TX_DETECTED") := by
  exact c2_signature_dedup.2.1 ((verifyBet betGS0 betReq1).1) betReq1
    (by simp [verifyBet, betGS0, betReq1, quoteUp, clampPrice, PRICE_SCALE])
    (by simp [betReq1]) (by simp [betReq1])
    (by simp [verifyBet, betGS0, betReq1, quoteUp, clampPrice, PRICE_SCALE])

/-- C10: a bet submission whose funding transaction's block time (in
milliseconds) is earlier than the current frame's start time never
mutates the game state and is never accepted; when it is not already
screened out by the pause, missing-data, duplicate, chain-validity or
zero-amount checks, the rejection is precisely TX_TIMESTAMP_EXPIRED
(server.js lines 591-595). -/
theorem c10_expired_rejection (gs : GameState) (r : BetReq)
    (hexp : r.txBlockTime < gs.candleStartTime) :
    (verifyBet gs r).1 = gs ∧
    (∀ sh p, (verifyBet gs r).2 ≠ BetResp.success sh p) ∧
    (gs.isPaused = false → ¬(r.signature = "" ∨ r.userPubKey = "") →
      r.signature ∉ gs.processedSignatures → r.txValid = true → r.solAmount ≠ 0 →
      (verifyBet gs r).2 = BetResp.error "TX_TIMESTAMP_EXPIRED") := by
  simp only [verifyBet]
  split_ifs <;> simp_all

/-- Witness for C10 at a concrete expired submission. -/
theorem c10_witness :
    ((verifyBet
      { candleOpen := 100, candleStartTime := 3000,
        poolShares := { up := 50, down := 50 }, bets := [], recentTrades := [],
        isPaused := false, processedSignatures := [], totalVolumeStat := 0 }
      { signature := "s9", userPubKey := "carol", direction := "DOWN",
        txValid := true, solAmount := 2, txBlockTime := 2000, now := 3500 }).2
      = BetResp.error "TX_TIMESTAMP_EXPIRED") := by
  have h := c10_expired_rejection
    { candleOpen := 100, candleStartTime := 3000,
      poolShares := { up := 50, down := 50 }, bets := [], recentTrades := [],
      isPaused := false, processedSignatures := [], totalVolumeStat := 0 }
    { signature := "s9", userPubKey := "carol", direction := "DOWN",
      txValid := true, solAmount := 2, txBlockTime := 2000, now := 3500 }
    (by decide)
  exact h.2.2 rfl (by simp) (by simp) rfl (by norm_num)

/-! ### Quote-pair lemmas for C9 -/

theorem le_clampPrice (q : ℚ) : 1/1000 ≤ clampPrice q := by
  unfold clampPrice
  split_ifs with h
  · norm_num
  · exact le_of_not_lt h

theorem clampPrice_pos (q : ℚ) : 0 < clampPrice q :=
  lt_of_lt_of_le (by norm_num) (le_clampPrice q)

theorem clampPrice_eq_of_lt (q : ℚ) (h : 1/1000 < q) : clampPrice q = q := by
  unfold clampPrice
  exact if_neg (not_lt.mpr h.le)

theorem quoteUp_add_quoteDown (p : PoolShares) (hT : 0 < p.up + p.down) :
    quoteUp p + quoteDown p = 1/10 := by
  unfold quoteUp quoteDown PRICE_SCALE
  field_simp

theorem quoteUp_lt_addUp (p : PoolShares) (s : ℚ) (hu : 0 ≤ p.up) (hd : 0 < p.down)
    (hs : 0 < s) : quoteUp p < quoteUp ⟨p.up + s, p.down⟩ := by
  unfold quoteUp PRICE_SCALE
  have hT : 0 < p.up + p.down := by linarith
  have hT' : 0 < p.up + s + p.down := by linarith
  have hdiv : p.up / (p.up + p.down) < (p.up + s) / (p.up + s + p.down) := by
    rw [div_lt_div_iff hT hT']
    nlinarith
  exact mul_lt_mul_of_pos_right hdiv (by norm_num)

theorem quoteDown_addUp_lt (p : PoolShares) (s : ℚ) (hu : 0 ≤ p.up) (hd : 0 < p.down)
    (hs : 0 < s) : quoteDown ⟨p.up + s, p.down⟩ < quoteDown p := by
  unfold quoteDown PRICE_SCALE
  have hT : 0 < p.up + p.down := by linarith
  have hT' : 0 < p.up + s + p.down := by linarith
  have hdiv : p.down / (p.up + s + p.down) < p.down / (p.up + p.down) := by
    rw [div_lt_div_iff hT' hT]
    nlinarith
  exact mul_lt_mul_of_pos_right hdiv (by norm_num)

theorem quoteDown_lt_addDown (p : PoolShares) (s : ℚ) (hu : 0 < p.up) (hd : 0 ≤ p.down)
    (hs : 0 < s) : quoteDown p < quoteDown ⟨p.up, p.down + s⟩ := by
  unfold quoteDown PRICE_SCALE
  have hT : 0 < p.up + p.down := by linarith
  have hT' : 0 < p.up + (p.down + s) := by linarith
  have hdiv : p.down / (p.up + p.down) < (p.down + s) / (p.up + (p.down + s)) := by
    rw [div_lt_div_iff hT hT']
    nlinarith
  exact mul_lt_mul_of_pos_right hdiv (by norm_num)

theorem quoteUp_addDown_lt (p : PoolShares) (s : ℚ) (hu : 0 < p.up) (hd : 0 ≤ p.down)
    (hs : 0 < s) : quoteUp ⟨p.up, p.down + s⟩ < quoteUp p := by
  unfold quoteUp PRICE_SCALE
  have hT : 0 < p.up + p.down := by linarith
  have hT' : 0 < p.up + (p.down + s) := by linarith
  have hdiv : p.up / (p.up + (p.down + s)) < p.up / (p.up + p.down) := by
    rw [div_lt_div_iff hT' hT]
    nlinarith
  exact mul_lt_mul_of_pos_right hdiv (by norm_num)

/-- Adding shares to the UP side strictly changes the clamped quote pair. -/
theorem quotePair_ne_addUp (p : PoolShares) (s : ℚ) (hu : 0 < p.up) (hd : 0 < p.down)
    (hs : 0 < s) : quotePair ⟨p.up + s, p.down⟩ ≠ quotePair p := by
  intro heq
  have h1 := congrArg Prod.fst heq
  have h2 := congrArg Prod.snd heq
  simp only [quotePair] at h1 h2
  by_cases hc : 1/1000 < quoteDown p
  · have hlt : quoteDown ⟨p.up + s, p.down⟩ < quoteDown p :=
      quoteDown_addUp_lt p s hu.le hd hs
    have hlt2 : clampPrice (quoteDown ⟨p.up + s, p.down⟩) < quoteDown p := by
      unfold clampPrice
      split_ifs with h
      · exact hc
      · exact hlt
    rw [clampPrice_eq_of_lt _ hc] at h2
    exact absurd h2 (ne_of_lt hlt2)
  · push_neg at hc
    have hT : 0 < p.up + p.down := by linarith
    have hsum := quoteUp_add_quoteDown p hT
    have hqU : 1/1000 < quoteUp p := by linarith
    have hlt : quoteUp p < quoteUp ⟨p.up + s, p.down⟩ :=
      quoteUp_lt_addUp p s hu.le hd hs
    rw [clampPrice_eq_of_lt _ hqU, clampPrice_eq_of_lt _ (lt_trans hqU hlt)] at h1
    exact absurd h1 (ne_of_gt hlt)

/-- Adding shares to the DOWN side strictly changes the clamped quote pair. -/
theorem quotePair_ne_addDown (p : PoolShares) (s : ℚ) (hu : 0 < p.up) (hd : 0 < p.down)
    (hs : 0 < s) : quotePair ⟨p.up, p.down + s⟩ ≠ quotePair p := by
  intro heq
  have h1 := congrArg Prod.fst heq
  have h2 := congrArg Prod.snd heq
  simp only [quotePair] at h1 h2
  by_cases hc : 1/1000 < quoteUp p
  · have hlt : quoteUp ⟨p.up, p.down + s⟩ < quoteUp p :=
      quoteUp_addDown_lt p s hu hd.le hs
    have hlt2 : clampPrice (quoteUp ⟨p.up, p.down + s⟩) < quoteUp p := by
      unfold clampPrice
      split_ifs with h
      · exact hc
      · exact hlt
    rw [clampPrice_eq_of_lt _ hc] at h1
    exact absurd h1 (ne_of_lt hlt2)
  · push_neg at hc
    have hT : 0 < p.up + p.down := by linarith
    have hsum := quoteUp_add_quoteDown p hT
    have hqD : 1/1000 < quoteDown p := by linarith
    have hlt : quoteDown p < quoteDown ⟨p.up, p.down + s⟩ :=
      quoteDown_lt_addDown p s hu hd.le hs
    rw [clampPrice_eq_of_lt _ hqD, clampPrice_eq_of_lt _ (lt_trans hqD hlt)] at h2
    exact absurd h2 (ne_of_gt hlt)

theorem betsShareSum_append (l : List Bet) (b : Bet) :
    betsShareSum (l ++ [b]) = betsShareSum l + b.shares := by
  simp [betsShareSum]

/-- C9 amended: the pool-share total stays at the 50+50 baseline plus the
sum of all granted shares; every accepted bet is granted
`amount / price` shares at the clamped quote of its side computed on the
pre-trade pool; and each accepted positive-amount bet strictly changes
the clamped quote pair, so two consecutively applied bets never observe
the same pre-trade quote pair (a single side's clamped price may repeat
when the minimum-tick floor binds — see the counterexample). -/
theorem c9_pool_and_pricing (gs : GameState) (r : BetReq)
    (hInv : gs.poolShares.up + gs.poolShares.down = 100 + betsShareSum gs.bets) :
    ((verifyBet gs r).1.poolShares.up + (verifyBet gs r).1.poolShares.down
      = 100 + betsShareSum ((verifyBet gs r).1.bets)) ∧
    (∀ gs' sh p, verifyBet gs r = (gs', BetResp.success sh p) →
      (p = clampPrice (if r.direction = "UP" then quoteUp gs.poolShares
            else quoteDown gs.poolShares) ∧
        sh = r.solAmount / p) ∧
      (0 < r.solAmount → 0 < gs.poolShares.up → 0 < gs.poolShares.down →
        quotePair gs'.poolShares ≠ quotePair gs.poolShares)) := by
  constructor
  · rcases hr : verifyBet gs r with ⟨gs', resp⟩
    cases resp with
    | error c =>
      have hst : (verifyBet gs r).1 = gs :=
        verifyBet_error_state gs r c (by rw [hr])
      rw [hr] at hst
      rw [hst]
      exact hInv
    | success sh p =>
      obtain ⟨hp, hsh, hpool, hbets, -⟩ := verifyBet_success_eq gs r gs' sh p hr
      simp only [hr, hpool, hbets, betsShareSum_append]
      by_cases hdir : r.direction = "UP" <;> simp [hdir] <;> linarith
  · intro gs' sh p hr
    obtain ⟨hp, hsh, hpool, -, -⟩ := verifyBet_success_eq gs r gs' sh p hr
    refine ⟨⟨hp, hsh⟩, ?_⟩
    intro hamt hup hdown
    have hppos : 0 < p := hp ▸ clampPrice_pos _
    have hshpos : 0 < sh := hsh ▸ div_pos hamt hppos
    rw [hpool]
    by_cases hdir : r.direction = "UP"
    · rw [if_pos hdir]
      exact quotePair_ne_addUp gs.poolShares sh hup hdown hshpos
    · rw [if_neg hdir]
      exact quotePair_ne_addDown gs.poolShares sh hup hdown hshpos

/-- Witness for C9 at the concrete fresh-frame state and bet. -/
theorem c9_witness :
    (verifyBet betGS0 betReq1).1.poolShares.up + (verifyBet betGS0 betReq1).1.poolShares.down
      = 100 + betsShareSum ((verifyBet betGS0 betReq1).1.bets) :=
  (c9_pool_and_pricing betGS0 betReq1 (by simp [betGS0, betsShareSum] <;> norm_num)).1

/-- Concrete fixture: a pool so lopsided that the UP quote sits below the
minimum tick. -/
def clampGS : GameState :=
  ⟨100, 1000, ⟨50, 99950⟩, [], [], false, [], 0⟩

/-- Concrete fixture: first tiny UP bet on the lopsided pool. -/
def clampReq1 : BetReq :=
  ⟨"c1", "dave", "UP", true, 1/1000, 2000, 1500⟩

/-- Concrete fixture: second tiny UP bet on the lopsided pool. -/
def clampReq2 : BetReq :=
  ⟨"c2", "erin", "UP", true, 1/1000, 2000, 1600⟩

/-- C9 counterexample: two bets applied in sequence both observe the same
pre-trade price 0.001 — the minimum-tick floor — although the pool
changed between them, refuting "no two bets applied in sequence observe
the same pre-trade price unless the pool is unchanged between them". -/
theorem c9_counterexample :
    (verifyBet clampGS clampReq1).2 = BetResp.success 1 (1/1000) ∧
    (verifyBet (verifyBet clampGS clampReq1).1 clampReq2).2 = BetResp.success 1 (1/1000) ∧
    ((verifyBet clampGS clampReq1).1).poolShares ≠ clampGS.poolShares := by
  refine ⟨?_, ?_, ?_⟩ <;>
    simp [verifyBet, clampGS, clampReq1, clampReq2, quoteUp, quoteDown, clampPrice,
      PRICE_SCALE] <;> norm_num

/-! ### C4: cancellation refunds -/

/-- Lookup in a JS-object-style association list (first matching key). -/
def amountFor : List (String × Int) → String → Int
  | [], _ => 0
  | e :: es, u => if e.1 = u then e.2 else amountFor es u

theorem amountFor_eq_zero_of_not_mem (es : List (String × Int)) (u : String)
    (h : es.any (fun e => e.1 = u) = false) : amountFor es u = 0 := by
  induction es with
  | nil => rfl
  | cons e es ih =>
    simp only [List.any_cons, Bool.or_eq_false_iff, decide_eq_false_iff_not] at h
    simp [amountFor, h.1, ih (by simpa using h.2)]

theorem amountFor_bump_ne (es : List (String × Int)) (k : String) (a : Int) (u : String)
    (hku : k ≠ u) :
    amountFor (es.map fun e => if e.1 = k then (e.1, e.2 + a) else e) u = amountFor es u := by
  induction es with
  | nil => rfl
  | cons e es ih =>
    by_cases he : e.1 = k
    · have heu : e.1 ≠ u := fun h => hku (he ▸ h)
      simp [amountFor, he, heu, hku, ih]
    · by_cases hu : e.1 = u
      · have huk : ¬ u = k := fun h => he (hu.trans h)
        simp [amountFor, hu, huk]
      · simp [amountFor, he, hu, ih]

theorem amountFor_bump_eq (es : List (String × Int)) (k : String) (a : Int)
    (hin : es.any (fun e => e.1 = k) = true) :
    amountFor (es.map fun e => if e.1 = k then (e.1, e.2 + a) else e) k
      = amountFor es k + a := by
  induction es with
  | nil => simp at hin
  | cons e es ih =>
    by_cases he : e.1 = k
    · simp [amountFor, he]
    · have hin' : es.any (fun e => e.1 = k) = true := by
        simpa [he] using hin
      simp [amountFor, he, ih hin']

theorem amountFor_append_of_any (es : List (String × Int)) (k : String) (a : Int)
    (u : String) (h : (es.any fun e => e.1 = u) = true) :
    amountFor (es ++ [(k, a)]) u = amountFor es u := by
  induction es with
  | nil => simp at h
  | cons e es ih =>
    by_cases hu : e.1 = u
    · simp [amountFor, hu]
    · simp only [List.any_cons, Bool.or_eq_true, decide_eq_true_eq] at h
      rcases h with h | h
      · exact absurd h hu
      · simp [amountFor, hu, ih h]

theorem amountFor_append_of_not_any (es : List (String × Int)) (k : String) (a : Int)
    (u : String) (h : (es.any fun e => e.1 = u) = false) :
    amountFor (es ++ [(k, a)]) u = if k = u then a else 0 := by
  induction es with
  | nil => simp [amountFor]
  | cons e es ih =>
    simp only [List.any_cons, Bool.or_eq_false_iff, decide_eq_false_iff_not] at h
    simp [amountFor, h.1, ih (by simpa using h.2)]

theorem amountFor_addRefund (acc : List (String × Int)) (b : Bet) (u : String) :
    amountFor (addRefund acc b) u
      = amountFor acc u + (if b.user = u then refundLamports b.costSol else 0) := by
  unfold addRefund
  by_cases hin : (acc.any fun e => e.1 = b.user) = true
  · rw [if_pos hin]
    by_cases hku : b.user = u
    · subst hku
      rw [amountFor_bump_eq acc b.user _ hin]
      simp
    · rw [amountFor_bump_ne acc b.user _ u hku]
      simp [hku]
  · rw [if_neg hin]
    have hany : (acc.any fun e => e.1 = b.user) = false := eq_false_of_ne_true hin
    by_cases hku : b.user = u
    · subst hku
      rw [amountFor_append_of_not_any acc b.user _ b.user hany]
      simp [amountFor_eq_zero_of_not_mem acc b.user hany]
    · by_cases hau : (acc.any fun e => e.1 = u) = true
      · rw [amountFor_append_of_any acc b.user _ u hau]
        simp [hku]
      · have hau' : (acc.any fun e => e.1 = u) = false := eq_false_of_ne_true hau
        rw [amountFor_append_of_not_any acc b.user _ u hau']
        simp [hku, amountFor_eq_zero_of_not_mem acc u hau']

theorem amountFor_foldl_addRefund (bets : List Bet) (acc : List (String × Int)) (u : String) :
    amountFor (bets.foldl addRefund acc) u
      = amountFor acc u
        + ((bets.filter fun b => b.user == u).map fun b => refundLamports b.costSol).sum := by
  induction bets generalizing acc with
  | nil => simp
  | cons b bs ih =>
    rw [List.foldl_cons, ih, amountFor_addRefund]
    by_cases hbu : b.user = u
    · simp only [List.filter_cons, hbu]
      simp [hbu]
      omega
    · simp only [List.filter_cons]
      simp [hbu]

/-- C4 amended: a cancelled frame compensates each user from bet costs
only — the compensation is computed solely from `costSol`, never from the
granted shares — but at 99% of the cost (floored in lamports, the
remaining 1% going to the fee wallet), not the full cost. -/
theorem c4_refund_cost_basis (bets : List Bet) (u : String) :
    amountFor (refundTotals bets) u
      = ((bets.filter fun b => b.user == u).map
          fun b => ⌊b.costSol * (99/100) * 1000000000⌋).sum := by
  have h := amountFor_foldl_addRefund bets [] u
  simpa [refundTotals, refundLamports, amountFor] using h

/-- Witness for C4 at a concrete bet list: the per-user refund formula
instantiated for alice. -/
theorem c4_witness :
    amountFor (refundTotals [⟨"sigA", "alice", "UP", 1, 1/20, 20, 0⟩]) "alice"
      = (([(⟨"sigA", "alice", "UP", 1, 1/20, 20, 0⟩ : Bet)].filter
          fun b => b.user == "alice").map
            fun b => ⌊b.costSol * (99/100) * 1000000000⌋).sum :=
  c4_refund_cost_basis [⟨"sigA", "alice", "UP", 1, 1/20, 20, 0⟩] "alice"

/-- Concrete fixture: a single 1-SOL bet by alice. -/
def oneSolBet : Bet :=
  ⟨"sigA", "alice", "UP", 1, 1/20, 20, 0⟩

/-- C4 counterexample: the refund for a 1-SOL bet is 990000000 lamports,
not the full cost of 1000000000 lamports — the refund is 99% of cost, so
"a refund equal to the bet's full cost" is false. -/
theorem c4_counterexample :
    refundTotals [oneSolBet] = [("alice", 990000000)] ∧
    (990000000 : Int) ≠ ⌊(1 : ℚ) * 1000000000⌋ := by
  constructor
  · simp [refundTotals, addRefund, refundLamports, oneSolBet]
    norm_num
  · norm_num

/-! ### C5: settlement payouts -/

theorem stance_up_iff (pos : Position) : stance pos = "UP" ↔ pos.down < pos.up := by
  unfold stance
  split_ifs with h1 h2
  · simpa using h1
  · exact ⟨fun h => absurd h (by decide), fun h => absurd h (by linarith)⟩
  · exact ⟨fun h => absurd h (by decide), fun h => absurd h h1⟩

theorem stance_down_iff (pos : Position) : stance pos = "DOWN" ↔ pos.up < pos.down := by
  unfold stance
  split_ifs with h1 h2
  · exact ⟨fun h => absurd h (by decide), fun h => absurd h (by linarith)⟩
  · simpa using h2
  · exact ⟨fun h => absurd h (by decide), fun h => absurd h h2⟩

theorem stance_flat_iff (pos : Position) : stance pos = "FLAT" ↔ pos.up = pos.down := by
  unfold stance
  split_ifs with h1 h2
  · exact ⟨fun h => absurd h (by decide), fun h => absurd h (by simp_all)⟩
  · exact ⟨fun h => absurd h (by decide), fun h => absurd h (by simp_all)⟩
  · exact ⟨fun _ => le_antisymm (not_lt.mp h1) (not_lt.mp h2), fun _ => rfl⟩

theorem mem_addPosition_nonneg (acc : List (String × Position)) (b : Bet)
    (hb : 0 ≤ b.shares) (hacc : ∀ e ∈ acc, 0 ≤ e.2.up ∧ 0 ≤ e.2.down) :
    ∀ e ∈ addPosition acc b, 0 ≤ e.2.up ∧ 0 ≤ e.2.down := by
  intro e he
  unfold addPosition at he
  by_cases hin : (acc.any fun e => e.1 = b.user) = true
  · rw [if_pos hin] at he
    rcases List.mem_map.mp he with ⟨a, ha, rfl⟩
    by_cases hk : a.1 = b.user
    · obtain ⟨h1, h2⟩ := hacc a ha
      rw [if_pos hk]
      by_cases hd : b.direction = "UP"
      · rw [if_pos hd]
        exact ⟨by simpa using add_nonneg h1 hb, by simpa using h2⟩
      · rw [if_neg hd]
        exact ⟨by simpa using h1, by simpa using add_nonneg h2 hb⟩
    · rw [if_neg hk]
      exact hacc a ha
  · rw [if_neg hin] at he
    rcases List.mem_append.mp he with h | h
    · exact hacc e h
    · simp only [List.mem_singleton] at h
      subst h
      by_cases hd : b.direction = "UP" <;> simp [hd, hb]

theorem foldl_addPosition_nonneg (bets : List Bet) (acc : List (String × Position))
    (hb : ∀ b ∈ bets, 0 ≤ b.shares) (hacc : ∀ e ∈ acc, 0 ≤ e.2.up ∧ 0 ≤ e.2.down) :
    ∀ e ∈ bets.foldl addPosition acc, 0 ≤ e.2.up ∧ 0 ≤ e.2.down := by
  induction bets generalizing acc with
  | nil => exact hacc
  | cons b bs ih =>
    rw [List.foldl_cons]
    exact ih _ (fun x hx => hb x (List.mem_cons_of_mem b hx))
      (mem_addPosition_nonneg acc b (hb b (List.mem_cons_self b bs)) hacc)

theorem userPositions_nonneg (bets : List Bet) (hb : ∀ b ∈ bets, 0 ≤ b.shares) :
    ∀ e ∈ userPositions bets, 0 ≤ e.2.up ∧ 0 ≤ e.2.down :=
  foldl_addPosition_nonneg bets [] hb (by simp)

theorem mem_eligibleWinners (result : String) (bets : List Bet) (u : String) (s : ℚ) :
    (u, s) ∈ eligibleWinners result bets ↔
      ∃ pos, (u, pos) ∈ userPositions bets ∧ stance pos = result ∧
        s = sharesHeld result pos := by
  unfold eligibleWinners
  rw [List.mem_filterMap]
  constructor
  · rintro ⟨e, he, hfe⟩
    by_cases hst : stance e.2 = result
    · rw [if_pos hst, Option.some.injEq, Prod.mk.injEq] at hfe
      exact ⟨e.2, by rwa [← hfe.1], hst, hfe.2.symm⟩
    · rw [if_neg hst] at hfe
      cases hfe
  · rintro ⟨pos, hmem, hst, rfl⟩
    exact ⟨(u, pos), hmem, by simp [hst]⟩

theorem eligible_shares_nonneg (result : String) (bets : List Bet)
    (hb : ∀ b ∈ bets, 0 ≤ b.shares) :
    ∀ w ∈ eligibleWinners result bets, 0 ≤ w.2 := by
  rintro ⟨u, s⟩ hw
  obtain ⟨pos, hmem, -, rfl⟩ := (mem_eligibleWinners result bets u s).mp hw
  obtain ⟨h1, h2⟩ := userPositions_nonneg bets hb _ hmem
  unfold sharesHeld
  split_ifs <;> assumption

theorem totalWinningShares_nonneg (result : String) (bets : List Bet)
    (hb : ∀ b ∈ bets, 0 ≤ b.shares) : 0 ≤ totalWinningShares result bets := by
  unfold totalWinningShares
  refine List.sum_nonneg ?_
  intro x hx
  rcases List.mem_map.mp hx with ⟨w, hw, rfl⟩
  exact eligible_shares_nonneg result bets hb w hw

/-- C5: at settlement, a user's stance is the side with more total
shares (tie: FLAT); the eligible winners are exactly the users whose
stance equals the result, holding their winning-side shares; the
submitted payout transfers are exactly the eligible winners whose payout
floor((shares / total winning shares) x pot-in-lamports) strictly
exceeds 5000 lamports; and no submitted payout is at or below the
5000-lamport dust threshold. -/
theorem c5_settlement (result : String) (bets : List Bet) (vol : ℚ)
    (hres : result = "UP" ∨ result = "DOWN")
    (hsh : ∀ b ∈ bets, 0 ≤ b.shares) :
    (∀ pos : Position,
      (stance pos = "UP" ↔ pos.down < pos.up) ∧
      (stance pos = "DOWN" ↔ pos.up < pos.down) ∧
      (stance pos = "FLAT" ↔ pos.up = pos.down)) ∧
    (∀ u s, (u, s) ∈ eligibleWinners result bets ↔
      ∃ pos, (u, pos) ∈ userPositions bets ∧ stance pos = result ∧
        s = (if result = "UP" then pos.up else pos.down)) ∧
    (∀ u amt, Effect.transfer u amt ∈ payoutTransfers result bets vol ↔
      ∃ s, (u, s) ∈ eligibleWinners result bets ∧
        amt = ⌊(potLamports vol : ℚ) * (s / totalWinningShares result bets)⌋ ∧
        5000 < amt) ∧
    (∀ u amt, Effect.transfer u amt ∈ payoutTransfers result bets vol → 5000 < amt) := by
  have hmemT : ∀ u amt, Effect.transfer u amt ∈ payoutTransfers result bets vol ↔
      ∃ s, (u, s) ∈ eligibleWinners result bets ∧
        amt = ⌊(potLamports vol : ℚ) * (s / totalWinningShares result bets)⌋ ∧
        5000 < amt := by
    intro u amt
    dsimp only [payoutTransfers, payoutLamports]
    constructor
    · intro hmem
      split_ifs at hmem with htw
      · rcases List.mem_filterMap.mp hmem with ⟨w, hw, hfw⟩
        split_ifs at hfw with hgt
        · rw [Option.some.injEq, Effect.transfer.injEq] at hfw
          have hw' : (w.1, w.2) ∈ eligibleWinners result bets := hw
          rw [hfw.1] at hw'
          exact ⟨w.2, hw', hfw.2.symm, hfw.2 ▸ hgt⟩
      · cases hmem
    · rintro ⟨s, hmem, hamt, hgt⟩
      have hs0 : 0 ≤ s := eligible_shares_nonneg result bets hsh (u, s) hmem
      have htw0 : 0 ≤ totalWinningShares result bets := totalWinningShares_nonneg result bets hsh
      have htw : 0 < totalWinningShares result bets := by
        rcases lt_or_eq_of_le htw0 with h | h
        · exact h
        · exfalso
          have hle : s ≤ totalWinningShares result bets := by
            unfold totalWinningShares
            refine List.single_le_sum ?_ s ?_
            · intro x hx
              rcases List.mem_map.mp hx with ⟨w, hw, rfl⟩
              exact eligible_shares_nonneg result bets hsh w hw
            · exact List.mem_map.mpr ⟨(u, s), hmem, rfl⟩
          have hs : s = 0 := le_antisymm (h ▸ hle) hs0
          rw [hs] at hamt
          simp at hamt
          omega
      rw [if_pos htw]
      refine List.mem_filterMap.mpr ⟨(u, s), hmem, ?_⟩
      rw [if_pos (by omega : (5000 : Int) < ⌊(potLamports vol : ℚ) * (s / totalWinningShares result bets)⌋)]
      rw [← hamt]
  refine ⟨?_, ?_, hmemT, ?_⟩
  · intro pos
    exact ⟨stance_up_iff pos, stance_down_iff pos, stance_flat_iff pos⟩
  · intro u s
    rw [mem_eligibleWinners]
    unfold sharesHeld
    exact Iff.rfl
  · intro u amt hmem
    obtain ⟨s, -, -, hgt⟩ := (hmemT u amt).mp hmem
    exact hgt

/-- Concrete fixture: alice bets 10 SOL UP at 0.05 for 200 shares. -/
def aliceBet : Bet :=
  ⟨"a1", "alice", "UP", 10, 1/20, 200, 0⟩

/-- Concrete fixture: bob bets 10 SOL DOWN at 0.05 for 200 shares. -/
def bobBet : Bet :=
  ⟨"b1", "bob", "DOWN", 10, 1/20, 200, 0⟩

/-- Witness for C5: in the UP frame with alice (200 UP shares) and bob
(200 DOWN shares) at 20 SOL of volume, alice's payout transfer of the
whole pot (18800000000 lamports) is submitted. -/
theorem c5_witness :
    Effect.transfer "alice" 18800000000 ∈ payoutTransfers "UP" [aliceBet, bobBet] 20 := by
  refine ((c5_settlement "UP" [aliceBet, bobBet] 20 (Or.inl rfl)
    (by
      intro b hb
      simp only [List.mem_cons, List.not_mem_nil, or_false] at hb
      rcases hb with rfl | rfl <;> norm_num [aliceBet, bobBet])).2.2.1
      "alice" 18800000000).mpr ⟨200, ?_, ?_, by norm_num⟩
  · simp [eligibleWinners, userPositions, addPosition, stance, sharesHeld, aliceBet, bobBet]
  · simp [totalWinningShares, eligibleWinners, userPositions, addPosition, stance,
      sharesHeld, potLamports, aliceBet, bobBet]
    norm_num

/-! ### C7: settlement side effects -/

/-- Every effect emitted by the payout engine is a transfer submission:
it writes no history record of its own and enqueues nothing. -/
theorem payoutTransfers_transfers_only (result : String) (bets : List Bet) (vol : ℚ) :
    ∀ e ∈ payoutTransfers result bets vol, ∃ rcp amt, e = Effect.transfer rcp amt := by
  intro e he
  dsimp only [payoutTransfers, payoutLamports] at he
  split_ifs at he with htw
  · rcases List.mem_filterMap.mp he with ⟨w, -, hfw⟩
    split_ifs at hfw with hgt
    rw [Option.some.injEq] at hfw
    exact ⟨_, _, hfw.symm⟩
  · cases he

theorem processPayouts_transfers_only (balance postPayoutBalance : Int) (result : String)
    (bets : List Bet) (vol : ℚ) :
    ∀ e ∈ processPayouts balance postPayoutBalance result bets vol,
      ∃ rcp amt, e = Effect.transfer rcp amt := by
  intro e he
  dsimp only [processPayouts] at he
  split_ifs at he
  all_goals try exact absurd he (List.not_mem_nil _)
  all_goals try (simp only [List.mem_singleton] at he; exact ⟨_, _, he⟩)
  all_goals
    rcases List.mem_append.mp he with h | h
    · rcases List.mem_append.mp h with h' | h'
      · first
          | (simp only [List.mem_singleton] at h'; exact ⟨_, _, h'⟩)
          | cases h'
      · exact payoutTransfers_transfers_only _ _ _ e h'
    · first
        | (simp only [List.mem_singleton] at h; exact ⟨_, _, h⟩)
        | cases h

/-- C7 amended: `closeFrame` writes the archival history record first,
strictly before any transfer activity; every later effect in its trace is
a transfer submitted inline by the fire-and-forget `processPayouts`, and
no queue enqueue ever occurs in this code path. -/
theorem c7_history_first (gs : GameState) (closePrice : ℚ) (closeTime : Int)
    (balance postPayoutBalance : Int) :
    ∃ record rest, (closeFrame gs closePrice closeTime balance postPayoutBalance).2
        = Effect.writeHistory record :: rest ∧
      (∀ e ∈ rest, ∃ rcp amt, e = Effect.transfer rcp amt) ∧
      (∀ q f, Effect.enqueue q f ∉
        (closeFrame gs closePrice closeTime balance postPayoutBalance).2) ∧
      (∀ r, Effect.writeHistory r ∉ rest) := by
  refine ⟨_, _, rfl, ?_, ?_, ?_⟩
  · intro e he
    exact processPayouts_transfers_only _ _ _ _ _ e he
  · intro q f hmem
    rcases List.mem_cons.mp hmem with h | h
    · cases h
    · rcases processPayouts_transfers_only _ _ _ _ _ _ h with ⟨rcp, amt, heq⟩
      cases heq
  · intro r hmem
    rcases processPayouts_transfers_only _ _ _ _ _ _ hmem with ⟨rcp, amt, heq⟩
    cases heq

/-- Concrete fixture: a frame holding alice's winning UP bet. -/
def c7GS : GameState :=
  ⟨100, 1000, ⟨250, 50⟩, [aliceBet], [], false, ["a1"], 10⟩

/-- Witness for C7 at the concrete frame: the history-first ordering of
its settlement trace. -/
theorem c7_witness :
    ∃ record rest, (closeFrame c7GS 110 1900 1000000000 0).2
        = Effect.writeHistory record :: rest ∧
      (∀ e ∈ rest, ∃ rcp amt, e = Effect.transfer rcp amt) ∧
      (∀ q f, Effect.enqueue q f ∉ (closeFrame c7GS 110 1900 1000000000 0).2) ∧
      (∀ r, Effect.writeHistory r ∉ rest) :=
  c7_history_first c7GS 110 1900 1000000000 0

/-- C7 counterexample: settling this frame emits inline transfer
submissions (the fee and alice's payout) and no enqueue effect at all —
refuting "its only transfer-related effect is to enqueue a PAYOUT or
REFUND batch; settlement itself performs no inline transfer submission".
The full effect trace is computed. -/
theorem c7_counterexample :
    (closeFrame c7GS 110 1900 1000000000 0).2
      = [Effect.writeHistory ⟨1000, 100, 110, "UP", 200, 0, 10⟩,
         Effect.transfer FEE_WALLET 552000000,
         Effect.transfer "alice" 9400000000] ∧
    Effect.transfer "alice" 9400000000 ∈ (closeFrame c7GS 110 1900 1000000000 0).2 := by
  have hfr : frameResult 100 110 = "UP" := by norm_num [frameResult]
  have hup : userPositions [aliceBet] = [("alice", ⟨200, 0⟩)] := by
    simp [userPositions, addPosition, aliceBet]
  have hel : eligibleWinners "UP" [aliceBet] = [("alice", 200)] := by
    norm_num [eligibleWinners, hup, stance, sharesHeld, List.filterMap_cons]
  have htot : totalWinningShares "UP" [aliceBet] = 200 := by
    norm_num [totalWinningShares, hel]
  have hpot : potLamports 10 = 9400000000 := by norm_num [potLamports]
  have hpt : payoutTransfers "UP" [aliceBet] 10 = [Effect.transfer "alice" 9400000000] := by
    dsimp only [payoutTransfers]
    rw [hel, htot, hpot]
    norm_num [payoutLamports, List.filterMap_cons]
  have hpp : processPayouts 1000000000 0 "UP" [aliceBet] 10
      = [Effect.transfer FEE_WALLET 552000000, Effect.transfer "alice" 9400000000] := by
    dsimp only [processPayouts]
    rw [hpt]
    rw [if_neg (by norm_num : ¬((10:ℚ) = 0))]
    rw [if_neg (by norm_num : ¬(((1000000000 : Int) : ℚ) / 1000000000 < 2/100))]
    rw [if_neg (by decide : ¬(("UP" : String) = "FLAT"))]
    rw [if_pos (by norm_num [FEE_PERCENT] :
      ⌊(10:ℚ) * FEE_PERCENT * 1000000000⌋ > (0:Int))]
    rw [if_neg (by norm_num : ¬((0 : Int) - 50000000 - 5000 > 0))]
    norm_num [FEE_PERCENT]
  have hsol : (List.map Bet.costSol [aliceBet]).sum = 10 := by
    norm_num [aliceBet]
  constructor
  · dsimp only [closeFrame, c7GS]
    rw [hsol, hfr, hpp]
    norm_num
  · dsimp only [closeFrame, c7GS]
    rw [hsol, hfr, hpp]
    simp

/-! ### C3, C6: queue drain behaviour -/

/-- C3: when the head batch's submission fails, the retry count is
incremented; below the ceiling of 5 the batch stays at the head with the
incremented count and the drain cycle stops (continue flag false); at the
ceiling, a multi-recipient batch is removed and replaced by one
single-recipient USER_REFUND batch per original recipient at retry count
0 (appended at the tail), while a single-recipient batch is removed and
appended to the permanent-failure log. -/
theorem c3_retry_policy (s : QueueState) (b : QBatch) (rest : List QBatch)
    (os : List (Option String))
    (hq : s.queue = b :: rest) (ho : s.outcomes = none :: os)
    (hv : (validRecipients s.userLogs b).isEmpty = false) :
    (b.retries + 1 < 5 →
      drainStep s = some (DrainEvent.heldForRetry ⟨b.btype, b.frameId, b.recipients, b.retries + 1⟩,
        { s with
          queue := (⟨b.btype, b.frameId, b.recipients, b.retries + 1⟩ : QBatch) :: rest
          outcomes := os },
        false)) ∧
    (5 ≤ b.retries + 1 → 1 < b.recipients.length →
      drainStep s = some (DrainEvent.decomposed ⟨b.btype, b.frameId, b.recipients, b.retries + 1⟩,
        { s with
          queue := rest ++ b.recipients.map (fun item => (⟨"USER_REFUND", b.frameId, [item], 0⟩ : QBatch))
          outcomes := os },
        true)) ∧
    (5 ≤ b.retries + 1 → b.recipients.length = 1 →
      drainStep s = some (DrainEvent.permLogged ⟨b.btype, b.frameId, b.recipients, b.retries + 1⟩,
        { s with
          queue := rest
          outcomes := os
          failedLog := s.failedLog ++ [⟨b.btype, b.frameId, b.recipients, b.retries + 1⟩] },
        true)) := by
  refine ⟨?_, ?_, ?_⟩
  · intro hlt
    simp only [drainStep, hq, ho, hv, Bool.false_eq_true, if_neg]
    rw [if_neg (by omega : ¬ b.retries + 1 ≥ 5)]
    rfl
  · intro hge hmulti
    simp only [drainStep, hq, ho, hv, Bool.false_eq_true, if_neg]
    rw [if_pos (by omega : b.retries + 1 ≥ 5),
      if_pos (by omega : b.recipients.length > 1)]
    rfl
  · intro hge hone
    simp only [drainStep, hq, ho, hv, Bool.false_eq_true, if_neg]
    rw [if_pos (by omega : b.retries + 1 ≥ 5),
      if_neg (by omega : ¬ b.recipients.length > 1)]
    rfl

/-- Concrete fixture: user logs where only bob's frame-7 entry exists,
carrying a refund marker but no payout marker. -/
def refundLogs : UserLogs := fun u f =>
  if u = "bob" ∧ f = 7 then some ⟨none, some "r1"⟩ else none

/-- Concrete fixture: a single-recipient refund batch for bob, frame 7. -/
def refundedBatch : QBatch := ⟨"USER_REFUND", 7, [⟨"bob", 8000⟩], 0⟩

/-- Concrete fixture: a two-recipient refund batch at retry count 4. -/
def c3Batch : QBatch := ⟨"USER_REFUND", 3, [⟨"u1", 6000⟩, ⟨"u2", 7000⟩], 4⟩

/-- Concrete fixture: queue state holding `c3Batch` with one failing
submission outcome pending. -/
def c3State : QueueState := ⟨[c3Batch], fun _ _ => none, [], [], [none]⟩

/-- Witness for C3: the fifth consecutive failure of the two-recipient
batch decomposes it into two single-recipient batches at retry count 0. -/
theorem c3_witness :
    drainStep c3State = some (DrainEvent.decomposed ⟨"USER_REFUND", 3, [⟨"u1", 6000⟩, ⟨"u2", 7000⟩], 5⟩,
      ⟨[⟨"USER_REFUND", 3, [⟨"u1", 6000⟩], 0⟩, ⟨"USER_REFUND", 3, [⟨"u2", 7000⟩], 0⟩],
        fun _ _ => none, [], [], []⟩,
      true) := by
  have h := (c3_retry_policy c3State c3Batch [] [] rfl rfl (by decide)).2.1
    (by decide) (by decide)
  exact h

/-- C6 counterexample: bob's record for frame 7 already carries a refund
transaction marker, yet the refund batch's recipient survives the filter
unchanged — refund batches are not filtered by the refund marker,
refuting "for refund batches by the recipient's own refund marker". -/
theorem c6_counterexample :
    refundLogs "bob" 7 = some ⟨none, some "r1"⟩ ∧
    validRecipients refundLogs refundedBatch = [⟨"bob", 8000⟩] := by
  exact ⟨rfl, rfl⟩

/-- C6 amended: before submitting, the drain cycle filters payout batches
by the recorded per-frameId payout transaction id; refund batches are not
filtered at all (every recipient survives, regardless of any refund
marker); and when no recipient survives, the batch is removed from the
queue with no submission — no outcome is consumed and no log is
written. -/
theorem c6_queue_filter :
    (∀ (logs : UserLogs) (b : QBatch) (item : QRecipient), b.btype = "USER_PAYOUT" →
      (item ∈ validRecipients logs b ↔
        item ∈ b.recipients ∧ hasPayoutTx logs item.pubKey b.frameId = false)) ∧
    (∀ (logs : UserLogs) (b : QBatch), b.btype = "USER_REFUND" →
      validRecipients logs b = b.recipients) ∧
    (∀ (s : QueueState) (b : QBatch) (rest : List QBatch), s.queue = b :: rest →
      (validRecipients s.userLogs b).isEmpty = true →
      drainStep s = some (DrainEvent.droppedNoSurvivors b, { s with queue := rest }, true)) := by
  refine ⟨?_, ?_, ?_⟩
  · intro logs b item hpay
    unfold validRecipients
    rw [if_pos (Or.inl hpay)]
    rw [List.mem_filter]
    simp [hpay]
  · intro logs b href
    unfold validRecipients
    rw [if_pos (Or.inr href)]
    refine List.filter_eq_self.mpr ?_
    intro a _
    simp [href]
  · intro s b rest hq hv
    simp only [drainStep, hq, hv, if_pos]

/-- Witness for C6: the concrete refund batch passes the filter whole. -/
theorem c6_witness :
    validRecipients refundLogs refundedBatch = refundedBatch.recipients :=
  c6_queue_filter.2.1 refundLogs refundedBatch rfl

/-! ### C1: queue terminal states and losslessness -/

/-- Concrete fixture: user logs where alice's frame-7 entry already
records a payout transaction. -/
def paidLogs : UserLogs := fun u f =>
  if u = "alice" ∧ f = 7 then some ⟨some "t1", none⟩ else none

/-- Concrete fixture: a payout batch whose sole recipient is already
marked paid for its frame. -/
def paidBatch : QBatch := ⟨"USER_PAYOUT", 7, [⟨"alice", 10000⟩], 0⟩

/-- Concrete fixture: a queue holding only the already-paid batch, with
no submission outcomes available at all. -/
def paidState : QueueState := ⟨[paidBatch], paidLogs, [], [], []⟩

/-- C1 counterexample: the already-paid payout batch leaves the queue in
a fourth way — popped with no submission attempted (no outcome consumed),
no decomposition, no permanent-failure log entry and no audit record —
refuting "ends the batch in exactly one of three terminal states:
delivered (popped after a successful submission), decomposed ..., or
appended to the permanent-failure log". -/
theorem c1_counterexample :
    drainStep paidState
      = some (DrainEvent.droppedNoSurvivors paidBatch, ⟨[], paidLogs, [], [], []⟩, true) := by
  rfl

/-- Length is bounded by the drain measure: every batch weighs at least 1. -/
theorem length_le_queueMeasure (q : List QBatch) : q.length ≤ queueMeasure q := by
  induction q with
  | nil => simp [queueMeasure]
  | cons b bs ih =>
    have hw : 1 ≤ batchWeight b := by
      unfold batchWeight
      split_ifs <;> omega
    unfold queueMeasure at ih ⊢
    simp only [List.map_cons, List.sum_cons, List.length_cons]
    omega

/-- How one drain iteration can dispose of the head batch, and
losslessness: every iteration removes the head after a confirmed
submission, drops it with nothing consumed when every recipient is
already paid, decomposes it (at the retry ceiling, multi-recipient) into
its single-recipient batches re-enqueued at the tail, appends it to the
permanent-failure log (at the ceiling, single-recipient), or holds it at
the head with a bumped retry count and stops the cycle; and a queue of N
batches whose submissions all succeed is fully drained by one
invocation. -/
theorem c1_queue_disposal :
    (∀ (s : QueueState) (b : QBatch) (rest : List QBatch) (e : DrainEvent)
        (s' : QueueState) (cont : Bool),
      s.queue = b :: rest → drainStep s = some (e, s', cont) →
      (∃ sig, e = DrainEvent.delivered b (validRecipients s.userLogs b) sig ∧
        s'.queue = rest) ∨
      (e = DrainEvent.droppedNoSurvivors b ∧ s'.queue = rest ∧
        s'.outcomes = s.outcomes ∧ s'.failedLog = s.failedLog ∧
        s'.payoutHistory = s.payoutHistory) ∨
      (e = DrainEvent.decomposed ⟨b.btype, b.frameId, b.recipients, b.retries + 1⟩ ∧
        s'.queue = rest ++ singleRecipientBatches b ∧ 1 < b.recipients.length) ∨
      (e = DrainEvent.permLogged ⟨b.btype, b.frameId, b.recipients, b.retries + 1⟩ ∧
        s'.queue = rest ∧
        s'.failedLog = s.failedLog ++ [⟨b.btype, b.frameId, b.recipients, b.retries + 1⟩]) ∨
      (e = DrainEvent.heldForRetry ⟨b.btype, b.frameId, b.recipients, b.retries + 1⟩ ∧
        s'.queue = (⟨b.btype, b.frameId, b.recipients, b.retries + 1⟩ : QBatch) :: rest ∧
        cont = false)) ∧
    (∀ s : QueueState, (∀ o ∈ s.outcomes, o.isSome = true) →
      s.queue.length ≤ s.outcomes.length →
      (processPayoutQueue s).1.queue = []) := by
  constructor
  · intro s b rest e s' cont hq hstep
    simp only [drainStep, hq] at hstep
    by_cases hv : (validRecipients s.userLogs b).isEmpty = true
    · rw [if_pos hv, Option.some.injEq, Prod.mk.injEq, Prod.mk.injEq] at hstep
      obtain ⟨he, hs, hc⟩ := hstep
      right; left
      exact ⟨he.symm, by rw [← hs], by rw [← hs], by rw [← hs], by rw [← hs]⟩
    · rw [if_neg hv] at hstep
      cases ho : s.outcomes with
      | nil =>
        rw [ho] at hstep
        exact Option.noConfusion hstep
      | cons o os =>
        rw [ho] at hstep
        cases o with
        | some sig =>
          dsimp only [] at hstep
          rw [Option.some.injEq, Prod.mk.injEq, Prod.mk.injEq] at hstep
          obtain ⟨he, hs, hc⟩ := hstep
          left
          exact ⟨sig, he.symm, by rw [← hs]⟩
        | none =>
          dsimp only [] at hstep
          by_cases hr : b.retries + 1 ≥ 5
          · rw [if_pos hr] at hstep
            by_cases hm : b.recipients.length > 1
            · rw [if_pos hm, Option.some.injEq, Prod.mk.injEq, Prod.mk.injEq] at hstep
              obtain ⟨he, hs, hc⟩ := hstep
              right; right; left
              exact ⟨he.symm, by rw [← hs], hm⟩
            · rw [if_neg hm, Option.some.injEq, Prod.mk.injEq, Prod.mk.injEq] at hstep
              obtain ⟨he, hs, hc⟩ := hstep
              right; right; right; left
              exact ⟨he.symm, by rw [← hs], by rw [← hs]⟩
          · rw [if_neg hr, Option.some.injEq, Prod.mk.injEq, Prod.mk.injEq] at hstep
            obtain ⟨he, hs, hc⟩ := hstep
            right; right; right; right
            exact ⟨he.symm, by rw [← hs], hc.symm⟩
  · intro s hout hle
    suffices h : ∀ n (s : QueueState), s.queue.length ≤ n →
        (∀ o ∈ s.outcomes, o.isSome = true) → s.queue.length ≤ s.outcomes.length →
        (drain n s).1.queue = [] by
      exact h (queueMeasure s.queue) s (length_le_queueMeasure s.queue) hout hle
    intro n
    induction n with
    | zero =>
      intro s hlen _ _
      have hnil : s.queue = [] := List.eq_nil_of_length_eq_zero (Nat.le_zero.mp hlen)
      simpa [drain] using hnil
    | succ n ih =>
      intro s hlen hout hle
      cases hq : s.queue with
      | nil =>
        simp [drain, drainStep, hq]
      | cons b rest =>
        rw [hq] at hlen hle
        simp only [List.length_cons] at hlen hle
        by_cases hv : (validRecipients s.userLogs b).isEmpty = true
        · have hstep : drainStep s = some (DrainEvent.droppedNoSurvivors b,
              { s with queue := rest }, true) := by
            simp only [drainStep, hq]
            rw [if_pos hv]
          simp [drain, hstep]
          exact ih { s with queue := rest } (by show rest.length ≤ n; omega) hout
            (by show rest.length ≤ s.outcomes.length; omega)
        · cases ho : s.outcomes with
          | nil =>
            rw [ho] at hle
            simp at hle
          | cons o os =>
            have hsome : o.isSome = true := hout o (ho ▸ List.mem_cons_self o os)
            obtain ⟨sig, rfl⟩ := Option.isSome_iff_exists.mp hsome
            have hstep : drainStep s = some
                (DrainEvent.delivered b (validRecipients s.userLogs b) sig,
                  { s with
                    queue := rest
                    outcomes := os
                    userLogs := applySuccessLogs s.userLogs b (validRecipients s.userLogs b) sig
                    payoutHistory := pushHistory s.payoutHistory
                      ⟨b.frameId, b.btype, sig, (validRecipients s.userLogs b).length,
                        batchTotalAmount (validRecipients s.userLogs b)⟩ },
                  true) := by
              simp only [drainStep, hq, ho]
              rw [if_neg hv]
            rw [ho] at hle
            simp only [List.length_cons] at hle
            simp [drain, hstep]
            refine ih _ (by show rest.length ≤ n; omega) ?_ ?_
            · intro x hx
              exact hout x (ho ▸ List.mem_cons_of_mem _ hx)
            · show rest.length ≤ os.length
              omega

/-- Concrete fixture: a queue of two opaque-type batches with two
confirmed submission outcomes available. -/
def c1State : QueueState :=
  ⟨[⟨"X", 1, [⟨"u", 9000⟩], 0⟩, ⟨"X", 2, [⟨"v", 9000⟩], 0⟩],
    fun _ _ => none, [], [], [some "t1", some "t2"]⟩

/-- Witness for C1: the two-batch queue with all-successful submissions
drains to empty. -/
theorem c1_witness : (processPayoutQueue c1State).1.queue = [] :=
  c1_queue_disposal.2 c1State (by decide) (by decide)

/-! ### C8: paused frame crossing a boundary -/

/-- Concrete fixture: a paused, not-cancelled frame with zero bets that
started at time 0. -/
def pausedGS : GameState131 := ⟨100, 0, [], true, false, false⟩

/-- C8 counterexample: when the paused zero-bet frame's boundary arrives
(time 900000), the system does transition into the next OPEN frame, but
it also appends a skipped-frame history record with result "PAUSED" —
refuting "appends no history record for the skipped frame". -/
theorem c8_counterexample :
    pausedBranch pausedGS [] 900000 101 900000
      = (⟨101, 900000, [], false, false, false⟩,
         [⟨0, 100, 101, "PAUSED", 0, 0, 0, 0, 0⟩],
         [PauseEvent.histAppend ⟨0, 100, 101, "PAUSED", 0, 0, 0, 0, 0⟩]) := by
  rfl

/-- C8 amended: a PAUSED, non-cancelled frame crossing its window
boundary (outside the auto-cancel window) transitions directly into the
next OPEN frame with the new start time and the fetched open price and
queues no refunds — but it appends a history record with result "PAUSED"
for the skipped frame (only a cancelled pause appends none). -/
theorem c8_paused_boundary (gs : GameState131) (hist : List HistRecord131)
    (now : Int) (p : ℚ) (ws : Int)
    (hc : gs.isCancelled = false) (hb : gs.bets = [])
    (hnr : ¬(gs.candleStartTime + FRAME_DURATION - now < 300000 ∧
             0 < gs.candleStartTime + FRAME_DURATION - now))
    (hw : gs.candleStartTime < ws) :
    (pausedBranch gs hist now p ws).1.isPaused = false ∧
    (pausedBranch gs hist now p ws).1.candleStartTime = ws ∧
    (pausedBranch gs hist now p ws).1.candleOpen = p ∧
    (pausedBranch gs hist now p ws).2.2
      = [PauseEvent.histAppend ⟨gs.candleStartTime, gs.candleOpen, p, "PAUSED", 0, 0, 0, 0, 0⟩] ∧
    PauseEvent.cancelAndRefund ∉ (pausedBranch gs hist now p ws).2.2 ∧
    (pausedBranch gs hist now p ws).2.1.head?
      = some ⟨gs.candleStartTime, gs.candleOpen, p, "PAUSED", 0, 0, 0, 0, 0⟩ := by
  have hcond : ¬(¬gs.isCancelled = true ∧
      gs.candleStartTime + FRAME_DURATION - now < 300000 ∧
      gs.candleStartTime + FRAME_DURATION - now > 0) := by
    rintro ⟨-, h1, h2⟩
    exact hnr ⟨h1, h2⟩
  have hrec : pausedBranch gs hist now p ws
      = ({ gs with isPaused := false, candleStartTime := ws, candleOpen := p },
         (let record : HistRecord131 :=
            ⟨gs.candleStartTime, gs.candleOpen, p, "PAUSED", 0, 0, 0, 0, 0⟩
          let hist' := record :: hist
          if hist'.length > 100 then hist'.take 100 else hist'),
         [PauseEvent.histAppend ⟨gs.candleStartTime, gs.candleOpen, p, "PAUSED", 0, 0, 0, 0, 0⟩]) := by
    unfold pausedBranch
    rw [if_neg hcond, if_pos hw, if_pos (by rw [hc]; exact Bool.false_ne_true)]
  rw [hrec]
  refine ⟨rfl, rfl, rfl, rfl, by simp, ?_⟩
  by_cases hlen : (100:Nat) <
      ((⟨gs.candleStartTime, gs.candleOpen, p, "PAUSED", 0, 0, 0, 0, 0⟩ : HistRecord131) :: hist).length
  · show List.head? (if _ then _ else _) = _
    rw [if_pos hlen]
    rfl
  · show List.head? (if _ then _ else _) = _
    rw [if_neg hlen]
    rfl

/-- Witness for C8 at the concrete paused state. -/
theorem c8_witness :
    (pausedBranch pausedGS [] 900000 101 900000).2.2
      = [PauseEvent.histAppend ⟨0, 100, 101, "PAUSED", 0, 0, 0, 0, 0⟩] :=
  (c8_paused_boundary pausedGS [] 900000 101 900000 rfl rfl (by decide) (by decide)).2.2.2.1

end ASDForecast
